import Mathlib

set_option autoImplicit false

/-!
# Verification of the kissorm struct/row mapping engine

Shallow embedding of `kiss_orm.go` (package `kissorm`): the record ⇄ row
codec (`StructToMap`, `FillStructWith`, `FillSliceWith`), the tag-descriptor
cache (`tagInfoCache` / `getTagNames`), the chunked result materializer
(`QueryChunks`), and the facade operations (`ChangeTable`, `Update`,
`Delete`).

Go-specific semantics are modelled explicitly:
* Go maps become association lists (`List (κ × ν)`) with overwrite-on-insert
  and zero-value-on-missing-key lookup (`mapLookupD`); Go map iteration order
  is unspecified, the model iterates rows in list order.
* Go `reflect` types are restricted to the fragment exercised by the code:
  `int`, `string`, and pointers (`GoTy`), plus an argument-shape universe
  (`Arg`) for the struct / pointer-to-struct / pointer-to-slice-of-structs
  shape checks.  `reflect.Type.ConvertibleTo` on this fragment is identity
  plus the Go `int → string` rune conversion.
* `reflect`'s panic on an out-of-range field index is a distinct error value
  (`GoErr.indexOutOfRange`).
-/

namespace KissOrm

/-- Go types, restricted to the fragment used by the codec's field values:
`int`, `string` and pointer types. -/
inductive GoTy where
  | tint
  | tstring
  | tptr (t : GoTy)
deriving DecidableEq

/-- `reflect.Kind() == reflect.Ptr` for this fragment. -/
def GoTy.isPtr : GoTy → Bool
  | .tptr _ => true
  | _ => false

/-- Go values of the types in `GoTy`.  `vnil t` is the nil pointer of type
`*t`; `vptr v` is a non-nil pointer to the value `v`. -/
inductive GoVal where
  | vint (n : Int)
  | vstr (s : String)
  | vnil (t : GoTy)
  | vptr (v : GoVal)
deriving DecidableEq

/-- The dynamic (reflect) type of a value. -/
def typeOf : GoVal → GoTy
  | .vint _ => .tint
  | .vstr _ => .tstring
  | .vnil t => .tptr t
  | .vptr v => .tptr (typeOf v)

/-- The Go zero value of a type (what `reflect.New` yields, dereferenced). -/
def zeroVal : GoTy → GoVal
  | .tint => .vint 0
  | .tstring => .vstr ""
  | .tptr t => .vnil t

/-- Go's `string(i)` conversion of an integer: the one-rune string, or the
Unicode replacement character when `i` is not a valid code point. -/
def runeString (n : Int) : String :=
  if 0 ≤ n ∧ Nat.isValidChar n.toNat then String.singleton (Char.ofNat n.toNat)
  else "�"

/-- `reflect.Type.ConvertibleTo` restricted to this fragment: identity
conversions plus Go's `int → string` rune conversion.  (Pointer types are
convertible only to themselves, which is what Go gives for distinct
pointee types without `unsafe`.) -/
def convertibleTo (a b : GoTy) : Bool :=
  a == b || (a == .tint && b == .tstring)

/-- `reflect.Value.Convert`: identity except for the `int → string` rune
conversion.  Only meaningful when `convertibleTo (typeOf v) b`. -/
def convert (v : GoVal) (b : GoTy) : GoVal :=
  if typeOf v = b then v
  else
    match v with
    | .vint n => .vstr (runeString n)
    | v => v

/-! ## Go maps as association lists

Go map semantics: lookup of a missing key yields the zero value
(`mapLookupD` with an explicit default), assignment overwrites an existing
key in place and otherwise appends, `delete` removes the key. -/

section GoMap

variable {κ ν : Type} [DecidableEq κ]

/-- The `, ok` part of a Go map read. -/
def mapHasKey : List (κ × ν) → κ → Bool
  | [], _ => false
  | p :: m, k => if p.1 = k then true else mapHasKey m k

/-- Go map read: the stored value, or the zero value `d` when absent. -/
def mapLookupD : List (κ × ν) → κ → ν → ν
  | [], _, d => d
  | p :: m, k, d => if p.1 = k then p.2 else mapLookupD m k d

/-- Go map assignment `m[k] = v`. -/
def mapInsert (m : List (κ × ν)) (k : κ) (v : ν) : List (κ × ν) :=
  if mapHasKey m k then m.map (fun p => if p.1 = k then (k, v) else p)
  else m ++ [(k, v)]

/-- Go `delete(m, k)`. -/
def mapDelete (m : List (κ × ν)) (k : κ) : List (κ × ν) :=
  m.filter (fun p => decide (p.1 ≠ k))

end GoMap

/-! ## Record types and the tag descriptor (`structInfo` / `getTagNames`)

A record type is its field list: for each field, the value of its `gorm`
struct tag (`""` when the tag is absent, which is what Go's `Tag.Get`
returns) and its declared type. -/

/-- A struct type: `gorm` tag and declared type of each field, in order. -/
abbrev StructDecl := List (String × GoTy)

/-- A database row: map from column name to value (`map[string]interface{}`).
Go map iteration order is unspecified; the model iterates in list order. -/
abbrev Row := List (String × GoVal)

/-- `structInfo` from the source: `Names` maps field index to tag name,
`Index` maps tag name to field index. -/
structure structInfo where
  Names : List (Nat × String)
  Index : List (String × Nat)
deriving DecidableEq

/-- The loop body of `getTagNames`: `for i := 0; i < t.NumField(); i++`,
skipping fields whose `gorm` tag is empty. -/
def gtnLoop : List (String × GoTy) → Nat → structInfo → structInfo
  | [], _, info => info
  | f :: rest, i, info =>
      if f.1 = "" then gtnLoop rest (i + 1) info
      else gtnLoop rest (i + 1)
            ⟨mapInsert info.Names i f.1, mapInsert info.Index f.1 i⟩

/-- `getTagNames` from the source: one reflective scan of a struct type. -/
def getTagNames (t : StructDecl) : structInfo :=
  gtnLoop t 0 ⟨[], []⟩

/-- The zero value of a struct type (fresh record, as from `reflect.New`). -/
def zeroVals (decl : StructDecl) : List GoVal :=
  decl.map (fun f => zeroVal f.2)

/-! ## Errors and argument shapes -/

/-- Errors returned (or panics raised) by the codec.

* `shapeError` models the `fmt.Errorf` shape-check failures (the source
  interpolates the concrete argument type with `%T`; the model keeps the
  fixed text).
* `typeMismatch colName fieldType entity` models
  `fmt.Errorf("FillStructWith: cannot convert atribute %s of type %v to
  type %T", colName, fieldType, entity)` — it carries exactly the three
  values the source formats: the column name, the destination field's
  declared type (passed where the source type was presumably intended),
  and the type of the target struct.
* `indexOutOfRange` models the `reflect` panic when `Field(i)` is called
  with `i ≥ NumField()` (reachable via `info.Index[colName]` on an
  unknown column when the struct has no fields). -/
inductive GoErr where
  | shapeError (msg : String)
  | typeMismatch (colName : String) (fieldType : GoTy) (entity : StructDecl)
  | indexOutOfRange
deriving DecidableEq

/-- Shapes of `interface{}` arguments passed to the codec entry points:
a struct value, a pointer to struct, a pointer to a slice of structs
(`isPtrElems` = slice of pointers-to-struct), a pointer to a slice of
non-structs, a pointer to something that is neither slice nor struct,
and a plain non-pointer non-struct value. -/
inductive Arg where
  | structArg (decl : StructDecl) (vals : List GoVal)
  | ptrStruct (decl : StructDecl) (vals : List GoVal)
  | ptrSliceStruct (decl : StructDecl) (isPtrElems : Bool) (elems : List (List GoVal))
  | ptrSliceNonStruct (t : GoTy)
  | ptrNonSlice (t : GoTy)
  | scalar (t : GoTy)
deriving DecidableEq

/-- Whether a `GoErr` is one of the shape-check errors. -/
def isShapeErr : GoErr → Bool
  | .shapeError _ => true
  | _ => false

/-! ## `StructToMap` (encode) -/

/-- The field loop of `StructToMap`: for each field (paired with its value,
index counting from `i`), skip nil pointer fields, dereference non-nil
pointer fields, and store under `info.Names[i]` (the empty string for
untagged fields, by Go map zero-value semantics).  The third match arm is
unreachable for values that have their field's declared type. -/
def stmLoop (info : structInfo) : List ((String × GoTy) × GoVal) → Nat → Row → Row
  | [], _, m => m
  | (f, v) :: rest, i, m =>
      match f.2, v with
      | .tptr _, .vnil _ => stmLoop info rest (i + 1) m
      | .tptr _, .vptr w =>
          stmLoop info rest (i + 1) (mapInsert m (mapLookupD info.Names i "") w)
      | _, _ =>
          stmLoop info rest (i + 1) (mapInsert m (mapLookupD info.Names i "") v)

/-- `StructToMap` on a struct with declaration `decl` and field values
`vals` (the cache lookup is semantically `getTagNames decl`; see the cache
theorems). -/
def structToMapGo (decl : StructDecl) (vals : List GoVal) : Row :=
  stmLoop (getTagNames decl) (decl.zip vals) 0 []

/-- `StructToMap` including its shape checks: accepts a struct or a pointer
to struct, rejects everything else with
`"input must be a struct or struct pointer"`. -/
def structToMap : Arg → Except GoErr Row
  | .structArg d vs => .ok (structToMapGo d vs)
  | .ptrStruct d vs => .ok (structToMapGo d vs)
  | .ptrSliceStruct _ _ _ => .error (.shapeError "input must be a struct or struct pointer")
  | .ptrSliceNonStruct _ => .error (.shapeError "input must be a struct or struct pointer")
  | .ptrNonSlice _ => .error (.shapeError "input must be a struct or struct pointer")
  | .scalar _ => .error (.shapeError "input must be a struct or struct pointer")

/-! ## `FillStructWith` (decode) -/

/-- The column loop of `FillStructWith`: for each row entry, look the column
up in `info.Index` (Go maps yield the zero value `0` for a missing key),
panic if the resulting field index is out of range, fail with the
`typeMismatch` error if the row value is not convertible to the field's
declared type, else `Convert` and `Set` the field.  Returns the (possibly
partially) mutated field values together with the error, since the source
mutates the target in place before failing. -/
def fillFields (decl : StructDecl) (info : structInfo) :
    List GoVal → Row → List GoVal × Option GoErr
  | vals, [] => (vals, none)
  | vals, (col, attr) :: rest =>
      let i := mapLookupD info.Index col 0
      if i < decl.length then
        let ft := (decl.getD i ("", .tint)).2
        if convertibleTo (typeOf attr) ft then
          fillFields decl info (vals.set i (convert attr ft)) rest
        else (vals, some (.typeMismatch col ft decl))
      else (vals, some .indexOutOfRange)

/-- `FillStructWith` including its shape checks: the entity must be a
pointer to struct; a non-pointer fails with the first shape error, a
pointer to a non-struct with the second. -/
def fillStructWith : Arg → Row → Arg × Option GoErr
  | .ptrStruct d vs, row =>
      let r := fillFields d (getTagNames d) vs row
      (.ptrStruct d r.1, r.2)
  | .structArg d vs, _ =>
      (.structArg d vs, some (.shapeError "FillStructWith: expected input to be a pointer to struct"))
  | .scalar t, _ =>
      (.scalar t, some (.shapeError "FillStructWith: expected input to be a pointer to struct"))
  | .ptrSliceStruct d b es, _ =>
      (.ptrSliceStruct d b es, some (.shapeError "FillStructWith: expected input kind to be a struct"))
  | .ptrSliceNonStruct t, _ =>
      (.ptrSliceNonStruct t, some (.shapeError "FillStructWith: expected input kind to be a struct"))
  | .ptrNonSlice t, _ =>
      (.ptrNonSlice t, some (.shapeError "FillStructWith: expected input kind to be a struct"))

/-! ## `decodeAsSliceOfStructs` and `FillSliceWith` -/

/-- `decodeAsSliceOfStructs`: requires a pointer to a slice of structs (or
of pointers to structs) and yields the element struct type, whether the
elements are pointers, and the current slice contents; otherwise one of the
three `FillListWith:` shape errors, in the source's check order (pointer
first, then slice, then struct elements). -/
def decodeAsSliceOfStructs : Arg → Except GoErr (StructDecl × Bool × List (List GoVal))
  | .ptrSliceStruct d b es => .ok (d, b, es)
  | .structArg _ _ => .error (.shapeError "FillListWith: expected input to be a pointer to struct")
  | .scalar _ => .error (.shapeError "FillListWith: expected input to be a pointer to struct")
  | .ptrStruct _ _ => .error (.shapeError "FillListWith: expected input kind to be a slice")
  | .ptrNonSlice _ => .error (.shapeError "FillListWith: expected input kind to be a slice")
  | .ptrSliceNonStruct _ => .error (.shapeError "FillListWith: expected input to be a slice of structs")

/-- The row loop of `FillSliceWith`: grow the slice with a zero element
when needed, decode the row into the element at the current index, stop at
the first error. -/
def fsLoop (d : StructDecl) (info : structInfo) :
    List (List GoVal) → Nat → List Row → List (List GoVal) × Option GoErr
  | elems, _, [] => (elems, none)
  | elems, idx, row :: rest =>
      let elems := if elems.length ≤ idx then elems ++ [zeroVals d] else elems
      let r := fillFields d info (elems.getD idx []) row
      let elems := elems.set idx r.1
      match r.2 with
      | some e => (elems, some e)
      | none => fsLoop d info elems (idx + 1) rest

/-- `FillSliceWith`: shape-check via `decodeAsSliceOfStructs`, then decode
each row into the corresponding slice element.  On an error the caller's
slice header is left unchanged (the source only executes
`sliceRef.Elem().Set(slice)` on the success path). -/
def fillSliceWith (arg : Arg) (dbRows : List Row) : Arg × Option GoErr :=
  match decodeAsSliceOfStructs arg with
  | .error e => (arg, some e)
  | .ok (d, isPtr, es) =>
      let r := fsLoop d (getTagNames d) es 0 dbRows
      match r.2 with
      | some e => (arg, some e)
      | none => (.ptrSliceStruct d isPtr r.1, none)

/-! ## `QueryChunks` (chunked result materializer)

Rows are modelled post-`ScanRows`: each cursor row is the element value
(the field-value list) that scanning it into a chunk element produces.
The observable behaviour is an event trace: the initial query execution
(`rawQuery`, the `c.db.Raw`/`it.Rows()` calls), one `scanRow` per row read,
and one `chunkCall` per `ForEachChunk` invocation, carrying the buffer the
callback sees. -/

/-- Observable events of a `QueryChunks` run. -/
inductive QEv where
  | rawQuery
  | scanRow
  | chunkCall (buf : List (List GoVal))
deriving DecidableEq

/-- The row loop of `QueryChunks` (source lines 100–133), including the
final partial-chunk call.  `idx` mirrors the Go loop variable: the body
sets it to `0` on a full chunk, and the `for` post-statement `idx++` then
makes it `1` — which is why the recursive full-chunk call passes `1`.
The slice grows by appending when `slice.Len() <= idx`, otherwise the
element at `idx` is overwritten in place; `ChunkSize` is taken ≥ 1 (for
`ChunkSize` ≤ 0 the Go comparison `idx == parser.ChunkSize-1` involves a
negative number and never fires, which `Nat` subtraction would misrender).
`g` is the `ForEachChunk` callback, returning `some` error to abort. -/
def qcLoop (k : Nat) (g : List (List GoVal) → Option GoErr) :
    List (List GoVal) → List (List GoVal) → Nat → List QEv →
      List QEv × Option GoErr
  | [], slice, idx, evs =>
      if 0 < idx then (evs ++ [.chunkCall (slice.take idx)], g (slice.take idx))
      else (evs, none)
  | r :: rest, slice, idx, evs =>
      let slice := if slice.length ≤ idx then slice ++ [r] else slice.set idx r
      let evs := evs ++ [.scanRow]
      if idx = k - 1 then
        match g slice with
        | some e => (evs ++ [.chunkCall slice], some e)
        | none => qcLoop k g rest slice 1 (evs ++ [.chunkCall slice])
      else qcLoop k g rest slice (idx + 1) evs

/-- `QueryChunks`: the query is executed (`rawQuery`) before the chunk
argument's shape is checked, exactly as in the source (`c.db.Raw` and
`it.Rows()` precede `decodeAsSliceOfStructs(parser.Chunk)`). -/
def queryChunks (chunkArg : Arg) (k : Nat) (g : List (List GoVal) → Option GoErr)
    (rows : List (List GoVal)) : List QEv × Option GoErr :=
  match decodeAsSliceOfStructs chunkArg with
  | .error e => ([.rawQuery], some e)
  | .ok (_, _, es) =>
      let r := qcLoop k g rows es 0 []
      (.rawQuery :: r.1, r.2)

/-- The buffers passed to the per-chunk callback, in invocation order. -/
def chunkBufs (evs : List QEv) : List (List (List GoVal)) :=
  evs.filterMap (fun e => match e with | .chunkCall b => some b | _ => none)

/-! ## The type-descriptor cache (`tagInfoCache`) -/

/-- The package-level `tagInfoCache` map. -/
structure CacheState where
  cache : List (StructDecl × structInfo)
deriving DecidableEq

/-- Result of one cached descriptor lookup: the descriptor, the cache
afterwards, and whether the reflective scan (`getTagNames`) ran. -/
structure DescribeResult where
  info : structInfo
  state : CacheState
  scanned : Bool
deriving DecidableEq

/-- The cache lookup performed identically by `StructToMap`,
`FillStructWith` and `FillSliceWith`:
`info, found := tagInfoCache[t]; if !found { info = getTagNames(t);
tagInfoCache[t] = info }`. -/
def describe (c : CacheState) (t : StructDecl) : DescribeResult :=
  if mapHasKey c.cache t then
    ⟨mapLookupD c.cache t ⟨[], []⟩, c, false⟩
  else
    ⟨getTagNames t, ⟨mapInsert c.cache t (getTagNames t)⟩, true⟩

/-- A sequence of descriptor lookups, recording for each requested type
whether it triggered a scan. -/
def describeAll (c : CacheState) : List StructDecl → CacheState × List (StructDecl × Bool)
  | [] => (c, [])
  | t :: ts =>
      let r := describe c t
      let rest := describeAll r.state ts
      (rest.1, (t, r.scanned) :: rest.2)

/-- How many of the lookups in `reqs` (starting from cache `c`) ran the
reflective scan for type `t`. -/
def scanCount (c : CacheState) (reqs : List StructDecl) (t : StructDecl) : Nat :=
  ((describeAll c reqs).2.filter (fun e => e.1 == t && e.2)).length

/-! ## Facade (`Client`) -/

/-- The facade: a table name and the shared database connection (the
connection is abstracted to an identifier — only identity matters). -/
structure Client where
  tableName : String
  db : Nat
deriving DecidableEq

/-- `ChangeTable`: a new facade on the same connection with the new table
name.  The receiver is passed by value, so the original is untouched. -/
def changeTable (c : Client) (tableName : String) : Client :=
  { db := c.db, tableName := tableName }

/-- Calls the facade issues to the execution collaborator. -/
inductive DbCall where
  | updates (tableName : String) (row : Row)
  | deleteById (tableName : String) (id : GoVal)
deriving DecidableEq

/-- `Update`: for each item, `StructToMap`, `delete(m, "id")`, then
`db.Table(tableName).Updates(m)`.  `f` is the collaborator's response to
each call (`some` error aborts, fail-fast).  Returns the calls actually
issued and the error returned to the caller. -/
def updateRun (f : DbCall → Option GoErr) (tableName : String) :
    List Arg → List DbCall × Option GoErr
  | [] => ([], none)
  | item :: rest =>
      match structToMap item with
      | .error e => ([], some e)
      | .ok m =>
          let call := DbCall.updates tableName (mapDelete m "id")
          match f call with
          | some e => ([call], some e)
          | none =>
              let r := updateRun f tableName rest
              (call :: r.1, r.2)

/-- `Delete`: one collaborator call per id, fail-fast. -/
def deleteRun (f : DbCall → Option GoErr) (tableName : String) :
    List GoVal → List DbCall × Option GoErr
  | [] => ([], none)
  | id :: rest =>
      let call := DbCall.deleteById tableName id
      match f call with
      | some e => ([call], some e)
      | none =>
          let r := deleteRun f tableName rest
          (call :: r.1, r.2)

/-! ## Auxiliary predicates used to state the claims -/

/-- Whether the `StructToMap` field loop emits a row entry for this
field/value: everything except a nil pointer field. -/
def stmEmits : (String × GoTy) × GoVal → Bool
  | ((_, .tptr _), .vnil _) => false
  | _ => true

/-- Spec-side reading of "the error identifies a type": the Go types the
error value actually carries (`fieldType` and the field types of the `%T`
entity argument for `typeMismatch`; shape errors and panics carry none). -/
def errMentionsTy : GoErr → GoTy → Bool
  | .typeMismatch _ ft entity, t => ft == t || entity.any (fun f => f.2 == t)
  | _, _ => false

/-- Arguments accepted by `StructToMap` (struct or pointer to struct). -/
def isStructToMapOk : Arg → Bool
  | .structArg _ _ => true
  | .ptrStruct _ _ => true
  | _ => false

/-- Arguments accepted by `FillStructWith` (pointer to struct). -/
def isPtrStructArg : Arg → Bool
  | .ptrStruct _ _ => true
  | _ => false

/-- Arguments accepted by `decodeAsSliceOfStructs` (pointer to slice of
structs). -/
def isPtrSliceStructArg : Arg → Bool
  | .ptrSliceStruct _ _ _ => true
  | _ => false

/-! ## Go map lemmas -/

section GoMapLemmas

variable {κ ν : Type} [DecidableEq κ]

@[simp] theorem mapHasKey_nil (k : κ) : mapHasKey ([] : List (κ × ν)) k = false := rfl

theorem mapHasKey_cons (p : κ × ν) (m : List (κ × ν)) (k : κ) :
    mapHasKey (p :: m) k = if p.1 = k then true else mapHasKey m k := rfl

@[simp] theorem mapLookupD_nil (k : κ) (d : ν) : mapLookupD ([] : List (κ × ν)) k d = d := rfl

theorem mapHasKey_append (m m' : List (κ × ν)) (k : κ) :
    mapHasKey (m ++ m') k = (mapHasKey m k || mapHasKey m' k) := by
  induction m with
  | nil => simp [mapHasKey]
  | cons p m ih =>
      by_cases h : p.1 = k <;> simp [mapHasKey, h, ih]

theorem mapLookupD_append (m m' : List (κ × ν)) (k : κ) (d : ν) :
    mapLookupD (m ++ m') k d =
      if mapHasKey m k then mapLookupD m k d else mapLookupD m' k d := by
  induction m with
  | nil => simp [mapHasKey]
  | cons p m ih =>
      by_cases h : p.1 = k <;> simp [mapHasKey, mapLookupD, h, ih]

theorem mapLookupD_of_not_hasKey {m : List (κ × ν)} {k : κ} (d : ν)
    (h : mapHasKey m k = false) : mapLookupD m k d = d := by
  induction m with
  | nil => rfl
  | cons p m ih =>
      by_cases hp : p.1 = k
      · simp [mapHasKey, hp] at h
      · simp [mapHasKey, mapLookupD, hp] at h ⊢
        exact ih h

theorem mapLookupD_replace (m : List (κ × ν)) (k : κ) (v : ν) (d : ν) :
    mapLookupD (m.map (fun p => if p.1 = k then (k, v) else p)) k d =
      if mapHasKey m k then v else d := by
  induction m with
  | nil => simp
  | cons p m ih =>
      by_cases h : p.1 = k
      · simp [mapHasKey, mapLookupD, h]
      · simp [mapHasKey, mapLookupD, h, ih]

theorem mapLookupD_replace_ne (m : List (κ × ν)) {k k' : κ} (v : ν) (d : ν)
    (h : k' ≠ k) :
    mapLookupD (m.map (fun p => if p.1 = k then (k, v) else p)) k' d =
      mapLookupD m k' d := by
  induction m with
  | nil => simp
  | cons p m ih =>
      by_cases hp : p.1 = k
      · have hk : k ≠ k' := fun e => h e.symm
        have hp' : p.1 ≠ k' := fun e => h (e.symm.trans hp)
        simp [mapLookupD, hp, hk, hp', ih]
      · by_cases hp' : p.1 = k'
        · simp [mapLookupD, hp, hp', h]
        · simp [mapLookupD, hp, hp', ih]

theorem mapHasKey_replace_self (m : List (κ × ν)) (k : κ) (v : ν) :
    mapHasKey (m.map (fun p => if p.1 = k then (k, v) else p)) k =
      mapHasKey m k := by
  induction m with
  | nil => simp
  | cons p m ih =>
      by_cases hp : p.1 = k <;> simp [mapHasKey, hp, ih]

theorem mapHasKey_replace_ne (m : List (κ × ν)) {k k' : κ} (v : ν)
    (h : k' ≠ k) :
    mapHasKey (m.map (fun p => if p.1 = k then (k, v) else p)) k' =
      mapHasKey m k' := by
  induction m with
  | nil => simp
  | cons p m ih =>
      by_cases hp : p.1 = k
      · have hk : k ≠ k' := fun e => h e.symm
        have hp' : p.1 ≠ k' := fun e => h (e.symm.trans hp)
        simp [mapHasKey, hp, hk, hp', ih]
      · by_cases hp' : p.1 = k'
        · simp [mapHasKey, hp, hp', h]
        · simp [mapHasKey, hp, hp', ih]

theorem mapLookupD_insert_self (m : List (κ × ν)) (k : κ) (v : ν) (d : ν) :
    mapLookupD (mapInsert m k v) k d = v := by
  unfold mapInsert
  by_cases h : mapHasKey m k
  · simp [h, mapLookupD_replace]
  · simp only [h, Bool.false_eq_true, if_false]
    rw [mapLookupD_append]
    simp [h, mapLookupD]

theorem mapLookupD_insert_ne (m : List (κ × ν)) {k k' : κ} (v : ν) (d : ν)
    (h : k' ≠ k) : mapLookupD (mapInsert m k v) k' d = mapLookupD m k' d := by
  unfold mapInsert
  by_cases hm : mapHasKey m k
  · simp [hm, mapLookupD_replace_ne _ _ _ h]
  · simp only [hm, Bool.false_eq_true, if_false]
    rw [mapLookupD_append]
    by_cases hk' : mapHasKey m k'
    · simp [hk']
    · have hk0 : mapHasKey m k' = false := by simpa using hk'
      have hkk : k ≠ k' := fun e => h e.symm
      simp [hk0, mapLookupD, hkk, mapLookupD_of_not_hasKey d hk0]

theorem mapHasKey_insert_self (m : List (κ × ν)) (k : κ) (v : ν) :
    mapHasKey (mapInsert m k v) k = true := by
  unfold mapInsert
  by_cases h : mapHasKey m k
  · simp [h, mapHasKey_replace_self]
  · simp [h, mapHasKey_append, mapHasKey]

theorem mapHasKey_insert_ne (m : List (κ × ν)) {k k' : κ} (v : ν)
    (h : k' ≠ k) : mapHasKey (mapInsert m k v) k' = mapHasKey m k' := by
  unfold mapInsert
  by_cases hm : mapHasKey m k
  · simp [hm, mapHasKey_replace_ne _ _ h]
  · have hkk : k ≠ k' := fun e => h e.symm
    simp [hm, mapHasKey_append, mapHasKey, hkk]

theorem mapInsert_of_not_hasKey {m : List (κ × ν)} {k : κ} (v : ν)
    (h : mapHasKey m k = false) : mapInsert m k v = m ++ [(k, v)] := by
  simp [mapInsert, h]

@[simp] theorem mapHasKey_delete_self (m : List (κ × ν)) (k : κ) :
    mapHasKey (mapDelete m k) k = false := by
  induction m with
  | nil => rfl
  | cons p m ih =>
      by_cases h : p.1 = k
      · simpa [mapDelete, List.filter_cons, h] using ih
      · simpa [mapDelete, List.filter_cons, h, mapHasKey] using ih

theorem mapHasKey_delete_ne (m : List (κ × ν)) {k k' : κ} (h : k' ≠ k) :
    mapHasKey (mapDelete m k) k' = mapHasKey m k' := by
  induction m with
  | nil => rfl
  | cons p m ih =>
      by_cases hp : p.1 = k
      · have hp' : p.1 ≠ k' := fun e => h (e.symm.trans hp)
        have hkk : k ≠ k' := fun e => h e.symm
        simpa [mapDelete, List.filter_cons, hp, mapHasKey, hp', hkk] using ih
      · by_cases hp' : p.1 = k'
        · simp [mapDelete, List.filter_cons, hp, mapHasKey, hp', h]
        · simpa [mapDelete, List.filter_cons, hp, mapHasKey, hp'] using ih

end GoMapLemmas

/-! ## List helper lemmas -/

section ListHelpers

variable {α β : Type}

theorem getD_set_ne : ∀ (l : List α) {i j : Nat} (v d : α), i ≠ j →
    (l.set i v).getD j d = l.getD j d
  | [], _, _, _, _, _ => rfl
  | _ :: _, 0, 0, _, _, h => absurd rfl h
  | _ :: _, 0, _ + 1, _, _, _ => rfl
  | _ :: _, _ + 1, 0, _, _, _ => rfl
  | _ :: l, i + 1, j + 1, v, d, h =>
      getD_set_ne l v d (fun e => h (congrArg Nat.succ e))

theorem take_succ_set : ∀ (l : List α) {j : Nat} (v : α), j < l.length →
    (l.set j v).take (j + 1) = l.take j ++ [v]
  | [], j, _, h => absurd h (by simp)
  | _ :: _, 0, v, _ => rfl
  | a :: l, j + 1, v, h => by
      have := take_succ_set l v (Nat.lt_of_succ_lt_succ h)
      simp [List.set, List.take, this]

theorem getD_mem : ∀ (l : List α) {j : Nat} (d : α), j < l.length → l.getD j d ∈ l
  | [], _, _, h => absurd h (by simp)
  | a :: _, 0, _, _ => List.mem_cons_self a _
  | _ :: l, j + 1, d, h =>
      List.mem_cons_of_mem _ (getD_mem l d (Nat.lt_of_succ_lt_succ h))

theorem getD_map (f : α → β) : ∀ (l : List α) {j : Nat} (d : α), j < l.length →
    (l.map f).getD j (f d) = f (l.getD j d)
  | [], _, _, h => absurd h (by simp)
  | _ :: _, 0, _, _ => rfl
  | _ :: l, j + 1, d, h => getD_map f l d (Nat.lt_of_succ_lt_succ h)

theorem nodup_getD_ne : ∀ (l : List α), l.Nodup → ∀ {p q : Nat} (d : α),
    p < l.length → q < l.length → p ≠ q → l.getD p d ≠ l.getD q d
  | [], _, _, _, _, hp, _, _ => absurd hp (by simp)
  | a :: l, h, 0, 0, _, _, _, hpq => absurd rfl hpq
  | a :: l, h, 0, q + 1, d, _, hq, _ => by
      have ha : a ∉ l := (List.nodup_cons.mp h).1
      have hm : l.getD q d ∈ l := getD_mem l d (Nat.lt_of_succ_lt_succ hq)
      intro e
      rw [List.getD_cons_zero, List.getD_cons_succ] at e
      exact ha (e.symm ▸ hm)
  | a :: l, h, p + 1, 0, d, hp, _, _ => by
      have ha : a ∉ l := (List.nodup_cons.mp h).1
      have hm : l.getD p d ∈ l := getD_mem l d (Nat.lt_of_succ_lt_succ hp)
      intro e
      rw [List.getD_cons_zero, List.getD_cons_succ] at e
      exact ha (e ▸ hm)
  | a :: l, h, p + 1, q + 1, d, hp, hq, hpq =>
      nodup_getD_ne l (List.nodup_cons.mp h).2 d (Nat.lt_of_succ_lt_succ hp)
        (Nat.lt_of_succ_lt_succ hq) (fun e => hpq (congrArg Nat.succ e))

theorem zip_getD : ∀ (l : List α) (l' : List β) {j : Nat} (da : α) (db : β),
    j < l.length → j < l'.length →
    (l.zip l').getD j (da, db) = (l.getD j da, l'.getD j db)
  | [], _, _, _, _, h, _ => absurd h (by simp)
  | _ :: _, [], _, _, _, _, h => absurd h (by simp)
  | _ :: _, _ :: _, 0, _, _, _, _ => rfl
  | _ :: l, _ :: l', j + 1, da, db, h, h' =>
      zip_getD l l' da db (Nat.lt_of_succ_lt_succ h) (Nat.lt_of_succ_lt_succ h')

theorem mem_zip_getD : ∀ (l : List α) (l' : List β) (e : α × β) (da : α) (db : β),
    e ∈ l.zip l' → ∃ j, j < l.length ∧ j < l'.length ∧
      l.getD j da = e.1 ∧ l'.getD j db = e.2
  | [], _, _, _, _, h => absurd h (by simp)
  | _ :: _, [], _, _, _, h => absurd h (by simp)
  | a :: l, b :: l', e, da, db, h => by
      rcases List.mem_cons.mp h with h | h
      · exact ⟨0, by simp, by simp, by simp [h], by simp [h]⟩
      · obtain ⟨j, hj, hj', h1, h2⟩ := mem_zip_getD l l' e da db h
        exact ⟨j + 1, Nat.succ_lt_succ hj, Nat.succ_lt_succ hj', h1, h2⟩

end ListHelpers

/-! ## Descriptor-scan lemmas (`getTagNames`) -/

/-- `gtnLoop` only touches `Names` keys ≥ the running index. -/
theorem gtnLoop_Names_lt : ∀ (fs : List (String × GoTy)) (i : Nat) (info : structInfo)
    {j : Nat} (d : String), j < i →
    mapLookupD (gtnLoop fs i info).Names j d = mapLookupD info.Names j d
  | [], _, _, _, _, _ => rfl
  | f :: rest, i, info, j, d, h => by
      by_cases hf : f.1 = ""
      · simpa [gtnLoop, hf] using
          gtnLoop_Names_lt rest (i + 1) info d (Nat.lt_succ_of_lt h)
      · have hne : j ≠ i := Nat.ne_of_lt h
        simp only [gtnLoop, hf, if_false]
        rw [gtnLoop_Names_lt rest (i + 1) _ d (Nat.lt_succ_of_lt h)]
        exact mapLookupD_insert_ne _ _ _ hne

/-- Tagged field `j` ends up in `Names` under its index. -/
theorem gtnLoop_Names_get : ∀ (fs : List (String × GoTy)) (i : Nat) (info : structInfo)
    {j : Nat}, j < fs.length → (fs.getD j ("", .tint)).1 ≠ "" →
    mapLookupD (gtnLoop fs i info).Names (i + j) "" = (fs.getD j ("", .tint)).1
  | [], _, _, _, h, _ => absurd h (by simp)
  | f :: rest, i, info, 0, _, htag => by
      simp only [List.getD_cons_zero] at htag ⊢
      simp only [gtnLoop, htag, if_false, Nat.add_zero]
      rw [gtnLoop_Names_lt rest (i + 1) _ "" (Nat.lt_succ_self i)]
      exact mapLookupD_insert_self _ _ _ _
  | f :: rest, i, info, j + 1, h, htag => by
      simp only [List.getD_cons_succ] at htag ⊢
      have harith : i + (j + 1) = (i + 1) + j := by omega
      rw [harith]
      by_cases hf : f.1 = "" <;>
        simp [gtnLoop, hf,
          gtnLoop_Names_get rest (i + 1) _ (Nat.lt_of_succ_lt_succ h) htag]

/-- `gtnLoop` leaves `Index` keys that are the tag of no processed field
untouched. -/
theorem gtnLoop_Index_pres : ∀ (fs : List (String × GoTy)) (i : Nat) (info : structInfo)
    (c : String) (d : Nat),
    (∀ p, p < fs.length → (fs.getD p ("", .tint)).1 ≠ c) →
    mapLookupD (gtnLoop fs i info).Index c d = mapLookupD info.Index c d
  | [], _, _, _, _, _ => rfl
  | f :: rest, i, info, c, d, h => by
      have hrest : ∀ p, p < rest.length → (rest.getD p ("", .tint)).1 ≠ c :=
        fun p hp => by simpa using h (p + 1) (Nat.succ_lt_succ hp)
      have hf1 : f.1 ≠ c := by simpa using h 0 (Nat.succ_pos _)
      by_cases hf : f.1 = ""
      · simpa [gtnLoop, hf] using gtnLoop_Index_pres rest (i + 1) info c d hrest
      · have hcf : c ≠ f.1 := fun e => hf1 e.symm
        simp only [gtnLoop, hf, if_false]
        rw [gtnLoop_Index_pres rest (i + 1) _ c d hrest]
        exact mapLookupD_insert_ne _ _ _ hcf

/-- Tagged field `j`, whose tag no other field shares, ends up in `Index`
under its tag. -/
theorem gtnLoop_Index_get : ∀ (fs : List (String × GoTy)) (i : Nat) (info : structInfo)
    {j : Nat}, j < fs.length → (fs.getD j ("", .tint)).1 ≠ "" →
    (∀ p, p < fs.length → p ≠ j → (fs.getD p ("", .tint)).1 ≠ (fs.getD j ("", .tint)).1) →
    mapLookupD (gtnLoop fs i info).Index ((fs.getD j ("", .tint)).1) 0 = i + j
  | [], _, _, _, h, _, _ => absurd h (by simp)
  | f :: rest, i, info, 0, _, htag, hdist => by
      simp only [List.getD_cons_zero] at htag hdist ⊢
      simp only [gtnLoop, htag, if_false, Nat.add_zero]
      have hrest : ∀ p, p < rest.length → (rest.getD p ("", .tint)).1 ≠ f.1 :=
        fun p hp => by
          simpa using hdist (p + 1) (Nat.succ_lt_succ hp) (Nat.succ_ne_zero p)
      rw [gtnLoop_Index_pres rest (i + 1) _ f.1 0 hrest]
      exact mapLookupD_insert_self _ _ _ _
  | f :: rest, i, info, j + 1, h, htag, hdist => by
      have htag' : (rest.getD j ("", .tint)).1 ≠ "" := by
        rw [List.getD_cons_succ] at htag; exact htag
      have hdist' : ∀ p, p < rest.length → p ≠ j →
          (rest.getD p ("", .tint)).1 ≠ (rest.getD j ("", .tint)).1 :=
        fun p hp hpj => by
          have := hdist (p + 1) (Nat.succ_lt_succ hp) (fun e => hpj (Nat.succ_injective e))
          rw [List.getD_cons_succ, List.getD_cons_succ] at this
          exact this
      have hlt := Nat.lt_of_succ_lt_succ h
      have harith : i + (j + 1) = (i + 1) + j := by omega
      rw [List.getD_cons_succ, harith]
      by_cases hf : f.1 = ""
      · rw [show gtnLoop (f :: rest) i info = gtnLoop rest (i + 1) info from by
          simp [gtnLoop, hf]]
        exact gtnLoop_Index_get rest (i + 1) info hlt htag' hdist'
      · rw [show gtnLoop (f :: rest) i info =
            gtnLoop rest (i + 1)
              ⟨mapInsert info.Names i f.1, mapInsert info.Index f.1 i⟩ from by
          simp [gtnLoop, hf]]
        exact gtnLoop_Index_get rest (i + 1) _ hlt htag' hdist'

/-- Descriptor fact: a tagged field's index maps to its tag in `Names`. -/
theorem getTagNames_Names (decl : StructDecl) {j : Nat} (hj : j < decl.length)
    (htag : (decl.getD j ("", .tint)).1 ≠ "") :
    mapLookupD (getTagNames decl).Names j "" = (decl.getD j ("", .tint)).1 := by
  simpa using gtnLoop_Names_get decl 0 ⟨[], []⟩ hj htag

/-- Descriptor fact: a tagged field's tag, shared by no other field, maps
back to its index in `Index`. -/
theorem getTagNames_Index (decl : StructDecl) {j : Nat} (hj : j < decl.length)
    (htag : (decl.getD j ("", .tint)).1 ≠ "")
    (hdist : ∀ p, p < decl.length → p ≠ j →
      (decl.getD p ("", .tint)).1 ≠ (decl.getD j ("", .tint)).1) :
    mapLookupD (getTagNames decl).Index ((decl.getD j ("", .tint)).1) 0 = j := by
  simpa using gtnLoop_Index_get decl 0 ⟨[], []⟩ hj htag hdist

/-! ## More list helpers -/

section ListHelpers2

variable {α β : Type}

theorem zip_map_fst : ∀ (l : List α) (l' : List β), l.length ≤ l'.length →
    (l.zip l').map (fun e => e.1) = l
  | [], _, _ => by simp
  | _ :: _, [], h => absurd h (by simp)
  | a :: l, b :: l', h => by
      simpa using zip_map_fst l l' (Nat.le_of_succ_le_succ h)

theorem zip_map_snd : ∀ (l : List α) (l' : List β), l'.length ≤ l.length →
    (l.zip l').map (fun e => e.2) = l'
  | _, [], _ => by simp
  | [], _ :: _, h => absurd h (by simp)
  | a :: l, b :: l', h => by
      simpa using zip_map_snd l l' (Nat.le_of_succ_le_succ h)

end ListHelpers2

/-- Distinct (`Nodup`) tag lists give distinct tags at distinct positions. -/
theorem decl_tags_distinct (decl : StructDecl)
    (hnd : (decl.map (fun f => f.1)).Nodup) {p q : Nat}
    (hp : p < decl.length) (hq : q < decl.length) (hpq : p ≠ q) :
    (decl.getD p ("", .tint)).1 ≠ (decl.getD q ("", .tint)).1 := by
  have e1 := getD_map (fun f : String × GoTy => f.1) decl ("", GoTy.tint) hp
  have e2 := getD_map (fun f : String × GoTy => f.1) decl ("", GoTy.tint) hq
  intro hcc
  exact nodup_getD_ne (decl.map (fun f => f.1)) hnd "" (by simpa using hp)
    (by simpa using hq) hpq (by rw [e1, e2]; exact hcc)

/-! ## Cache lemmas (`tagInfoCache`) -/

/-- After any lookup of `t`, the cache holds `t`. -/
theorem describe_hasKey_after (c : CacheState) (t : StructDecl) :
    mapHasKey (describe c t).state.cache t = true := by
  by_cases h : mapHasKey c.cache t
  · simp [describe, h]
  · simp [describe, h, mapHasKey_insert_self]

/-- Lookups never evict: a cached type stays cached. -/
theorem describe_pres_hasKey (c : CacheState) (t t' : StructDecl)
    (h : mapHasKey c.cache t = true) :
    mapHasKey (describe c t').state.cache t = true := by
  by_cases h' : mapHasKey c.cache t'
  · simp [describe, h', h]
  · by_cases he : t = t'
    · subst he
      simp [describe, h', mapHasKey_insert_self]
    · simp [describe, h', mapHasKey_insert_ne _ _ he, h]

/-- One step of the scan counter. -/
theorem scanCount_cons (c : CacheState) (t' t : StructDecl) (ts : List StructDecl) :
    scanCount c (t' :: ts) t =
      (if t' = t ∧ (describe c t').scanned = true then 1 else 0)
        + scanCount (describe c t').state ts t := by
  by_cases he : t' = t
  · subst he
    by_cases hs : (describe c t').scanned = true
    · simp [scanCount, describeAll, List.filter_cons, hs, Nat.add_comm]
    · simp [scanCount, describeAll, List.filter_cons, hs]
  · simp [scanCount, describeAll, List.filter_cons, he]

/-- A type already in the cache is never scanned again. -/
theorem scanCount_zero_of_cached :
    ∀ (reqs : List StructDecl) (c : CacheState) (t : StructDecl),
    mapHasKey c.cache t = true → scanCount c reqs t = 0
  | [], _, _, _ => by simp [scanCount, describeAll]
  | t' :: ts, c, t, h => by
      have h1 : ¬(t' = t ∧ (describe c t').scanned = true) := by
        rintro ⟨he, hs⟩
        subst he
        simp [describe, h] at hs
      rw [scanCount_cons, if_neg h1,
        scanCount_zero_of_cached ts _ t (describe_pres_hasKey c t t' h)]

/-- The reflective scan runs at most once per type over any request
sequence. -/
theorem scanCount_le_one :
    ∀ (reqs : List StructDecl) (c : CacheState) (t : StructDecl),
    scanCount c reqs t ≤ 1
  | [], _, _ => by simp [scanCount, describeAll]
  | t' :: ts, c, t => by
      rw [scanCount_cons]
      by_cases hcase : t' = t ∧ (describe c t').scanned = true
      · rw [if_pos hcase]
        have hc : mapHasKey (describe c t').state.cache t = true := by
          rcases hcase with ⟨he, _⟩
          subst he
          exact describe_hasKey_after c t'
        have h0 := scanCount_zero_of_cached ts _ t hc
        omega
      · rw [if_neg hcase]
        have := scanCount_le_one ts (describe c t').state t
        omega

/-! ## Conversion lemmas -/

@[simp] theorem convertibleTo_self (a : GoTy) : convertibleTo a a = true := by
  simp [convertibleTo]

theorem convert_of_typeOf_eq {v : GoVal} {b : GoTy} (h : typeOf v = b) :
    convert v b = v := by
  simp [convert, h]

/-! ## Encode-loop lemmas (`stmLoop`) -/

/-- On a struct whose processed fields are all non-pointer, carry pairwise
distinct tags matching `info.Names`, and whose tags are fresh for the
accumulated row, the `StructToMap` loop appends one `(tag, value)` entry
per field in order. -/
theorem stmLoop_plain (info : structInfo) :
    ∀ (fvs : List ((String × GoTy) × GoVal)) (i : Nat) (m : Row),
    (∀ p, p < fvs.length → mapLookupD info.Names (i + p) ""
        = (fvs.getD p (("", .tint), .vint 0)).1.1) →
    (∀ e ∈ fvs, e.1.2.isPtr = false) →
    (∀ e ∈ fvs, mapHasKey m e.1.1 = false) →
    (fvs.map (fun e => e.1.1)).Nodup →
    stmLoop info fvs i m = m ++ fvs.map (fun e => (e.1.1, e.2))
  | [], _, m, _, _, _, _ => by simp [stmLoop]
  | (f, v) :: rest, i, m, hname, hptr, hfresh, hnd => by
      obtain ⟨ftag, fty⟩ := f
      have hf : fty.isPtr = false := hptr ((ftag, fty), v) (List.mem_cons_self _ _)
      have hkey : mapLookupD info.Names i "" = ftag := by
        simpa using hname 0 (Nat.succ_pos _)
      have hfresh0 : mapHasKey m ftag = false :=
        hfresh ((ftag, fty), v) (List.mem_cons_self _ _)
      rw [List.map_cons] at hnd
      have hnd' := List.nodup_cons.mp hnd
      have hname' : ∀ p, p < rest.length → mapLookupD info.Names ((i + 1) + p) ""
          = (rest.getD p (("", .tint), .vint 0)).1.1 := fun p hp => by
        have e : i + (p + 1) = (i + 1) + p := by omega
        have := hname (p + 1) (Nat.succ_lt_succ hp)
        rw [e] at this
        simpa using this
      have hfresh' : ∀ e ∈ rest, mapHasKey (m ++ [(ftag, v)]) e.1.1 = false :=
        fun e he => by
        have h1 : mapHasKey m e.1.1 = false := hfresh e (List.mem_cons_of_mem _ he)
        have h2 : ftag ≠ e.1.1 := fun hcontra => by
          exact hnd'.1 (hcontra ▸ List.mem_map_of_mem (fun e => e.1.1) he)
        simp [mapHasKey_append, h1, mapHasKey, h2]
      have hptr' : ∀ e ∈ rest, e.1.2.isPtr = false :=
        fun e he => hptr e (List.mem_cons_of_mem _ he)
      have hrec := stmLoop_plain info rest (i + 1) (m ++ [(ftag, v)])
        hname' hptr' hfresh' hnd'.2
      cases fty with
      | tptr t => simp [GoTy.isPtr] at hf
      | tint =>
          cases v <;>
            simp [stmLoop, hkey, mapInsert_of_not_hasKey _ hfresh0, hrec]
      | tstring =>
          cases v <;>
            simp [stmLoop, hkey, mapInsert_of_not_hasKey _ hfresh0, hrec]

/-- A column name that is neither already in the accumulated row nor the
`Names` entry of any emitting field never appears in the encoded row. -/
theorem stmLoop_hasKey_false (info : structInfo) :
    ∀ (fvs : List ((String × GoTy) × GoVal)) (i : Nat) (m : Row) (c : String),
    mapHasKey m c = false →
    (∀ p, p < fvs.length → stmEmits (fvs.getD p (("", .tint), .vint 0)) = true →
      mapLookupD info.Names (i + p) "" ≠ c) →
    mapHasKey (stmLoop info fvs i m) c = false
  | [], _, m, c, hm, _ => by simpa [stmLoop] using hm
  | (f, v) :: rest, i, m, c, hm, hskip => by
      obtain ⟨ftag, fty⟩ := f
      have hskip' : ∀ p, p < rest.length →
          stmEmits (rest.getD p (("", .tint), .vint 0)) = true →
          mapLookupD info.Names ((i + 1) + p) "" ≠ c := fun p hp he => by
        have e : i + (p + 1) = (i + 1) + p := by omega
        have := hskip (p + 1) (Nat.succ_lt_succ hp) (by simpa using he)
        rw [e] at this
        exact this
      cases fty with
      | tptr t =>
          cases v with
          | vnil t' =>
              simpa [stmLoop] using
                stmLoop_hasKey_false info rest (i + 1) m c hm hskip'
          | vptr w =>
              have hkey : mapLookupD info.Names i "" ≠ c := by
                simpa using hskip 0 (Nat.succ_pos _) (by simp [stmEmits])
              have hc : c ≠ mapLookupD info.Names i "" := fun e => hkey e.symm
              have hins : mapHasKey (mapInsert m (mapLookupD info.Names i "") w) c
                  = false := by
                rw [mapHasKey_insert_ne _ _ hc]; exact hm
              simpa [stmLoop] using
                stmLoop_hasKey_false info rest (i + 1) _ c hins hskip'
          | vint n =>
              have hkey : mapLookupD info.Names i "" ≠ c := by
                simpa using hskip 0 (Nat.succ_pos _) (by simp [stmEmits])
              have hc : c ≠ mapLookupD info.Names i "" := fun e => hkey e.symm
              have hins : mapHasKey (mapInsert m (mapLookupD info.Names i "")
                  (GoVal.vint n)) c = false := by
                rw [mapHasKey_insert_ne _ _ hc]; exact hm
              simpa [stmLoop] using
                stmLoop_hasKey_false info rest (i + 1) _ c hins hskip'
          | vstr s =>
              have hkey : mapLookupD info.Names i "" ≠ c := by
                simpa using hskip 0 (Nat.succ_pos _) (by simp [stmEmits])
              have hc : c ≠ mapLookupD info.Names i "" := fun e => hkey e.symm
              have hins : mapHasKey (mapInsert m (mapLookupD info.Names i "")
                  (GoVal.vstr s)) c = false := by
                rw [mapHasKey_insert_ne _ _ hc]; exact hm
              simpa [stmLoop] using
                stmLoop_hasKey_false info rest (i + 1) _ c hins hskip'
      | tint =>
          have hkey : mapLookupD info.Names i "" ≠ c := by
            simpa using hskip 0 (Nat.succ_pos _) (by simp [stmEmits])
          have hc : c ≠ mapLookupD info.Names i "" := fun e => hkey e.symm
          have hins : mapHasKey (mapInsert m (mapLookupD info.Names i "") v) c
              = false := by
            rw [mapHasKey_insert_ne _ _ hc]; exact hm
          cases v <;>
            simpa [stmLoop] using
              stmLoop_hasKey_false info rest (i + 1) _ c hins hskip'
      | tstring =>
          have hkey : mapLookupD info.Names i "" ≠ c := by
            simpa using hskip 0 (Nat.succ_pos _) (by simp [stmEmits])
          have hc : c ≠ mapLookupD info.Names i "" := fun e => hkey e.symm
          have hins : mapHasKey (mapInsert m (mapLookupD info.Names i "") v) c
              = false := by
            rw [mapHasKey_insert_ne _ _ hc]; exact hm
          cases v <;>
            simpa [stmLoop] using
              stmLoop_hasKey_false info rest (i + 1) _ c hins hskip'

/-! ## Decode-loop lemmas (`fillFields`) -/

/-- Unfolding equation for one step of the `FillStructWith` column loop. -/
theorem fillFields_cons (decl : StructDecl) (info : structInfo) (vals : List GoVal)
    (col : String) (attr : GoVal) (rest : Row) :
    fillFields decl info vals ((col, attr) :: rest) =
      (if mapLookupD info.Index col 0 < decl.length then
        (if convertibleTo (typeOf attr)
            ((decl.getD (mapLookupD info.Index col 0) ("", .tint)).2) = true then
          fillFields decl info
            (vals.set (mapLookupD info.Index col 0)
              (convert attr ((decl.getD (mapLookupD info.Index col 0) ("", .tint)).2)))
            rest
        else (vals, some (.typeMismatch col
              ((decl.getD (mapLookupD info.Index col 0) ("", .tint)).2) decl)))
      else (vals, some .indexOutOfRange)) := by
  rw [fillFields]

/-- Frame lemma: a field whose index is the `Index`-lookup of no row key is
never written by the decode loop (also on error exits). -/
theorem fillFields_frame (decl : StructDecl) (info : structInfo) :
    ∀ (row : Row) (vals : List GoVal) (j : Nat) (d : GoVal),
    (∀ e ∈ row, mapLookupD info.Index e.1 0 ≠ j) →
    (fillFields decl info vals row).1.getD j d = vals.getD j d
  | [], _, _, _, _ => by simp [fillFields]
  | (col, attr) :: rest, vals, j, d, hj => by
      have hcol : mapLookupD info.Index col 0 ≠ j :=
        hj (col, attr) (List.mem_cons_self _ _)
      have hrest : ∀ e ∈ rest, mapLookupD info.Index e.1 0 ≠ j :=
        fun e he => hj e (List.mem_cons_of_mem _ he)
      rw [fillFields_cons]
      by_cases hi : mapLookupD info.Index col 0 < decl.length
      · rw [if_pos hi]
        by_cases hconv : convertibleTo (typeOf attr)
            ((decl.getD (mapLookupD info.Index col 0) ("", .tint)).2) = true
        · rw [if_pos hconv]
          rw [fillFields_frame decl info rest _ j d hrest]
          exact getD_set_ne vals _ d hcol
        · rw [if_neg hconv]
      · rw [if_neg hi]

/-- Round-trip core: decoding a row whose entries are exactly the
`(tag, value)` pairs of fields `j, j+1, …` (their tags resolving back to
their indices, their values having the declared types) writes those values
over the state beyond position `j` and succeeds. -/
theorem fillFields_roundtrip (decl : StructDecl) (info : structInfo) :
    ∀ (fvs : List ((String × GoTy) × GoVal)) (j : Nat) (state : List GoVal),
    state.length = decl.length →
    (∀ p, p < fvs.length →
      mapLookupD info.Index ((fvs.getD p (("", .tint), .vint 0)).1.1) 0 = j + p) →
    j + fvs.length = decl.length →
    (∀ p, p < fvs.length →
      (decl.getD (j + p) ("", .tint)).2 = (fvs.getD p (("", .tint), .vint 0)).1.2) →
    (∀ p, p < fvs.length →
      typeOf (fvs.getD p (("", .tint), .vint 0)).2
        = (fvs.getD p (("", .tint), .vint 0)).1.2) →
    fillFields decl info state (fvs.map (fun e => (e.1.1, e.2)))
      = (state.take j ++ fvs.map (fun e => e.2), none)
  | [], j, state, hstate, _, hlen, _, _ => by
      have hj : j = state.length := by simp at hlen; omega
      simp [fillFields, hj, List.take_length]
  | (f, v) :: rest, j, state, hstate, hidx, hlen, hft, hty => by
      obtain ⟨ftag, fty⟩ := f
      have hidx0 : mapLookupD info.Index ftag 0 = j := by
        simpa using hidx 0 (Nat.succ_pos _)
      have hjlt : j < decl.length := by simp at hlen; omega
      have hjlt' : j < state.length := by omega
      have hft0 : (decl.getD j ("", .tint)).2 = fty := by
        simpa using hft 0 (Nat.succ_pos _)
      have hty0 : typeOf v = fty := by simpa using hty 0 (Nat.succ_pos _)
      have hconv : convertibleTo (typeOf v) ((decl.getD j ("", .tint)).2) = true := by
        rw [hty0, hft0]; exact convertibleTo_self _
      have hcv : convert v ((decl.getD j ("", .tint)).2) = v :=
        convert_of_typeOf_eq (by rw [hty0, hft0])
      have hidx' : ∀ p, p < rest.length →
          mapLookupD info.Index ((rest.getD p (("", .tint), .vint 0)).1.1) 0
            = (j + 1) + p := fun p hp => by
        have e : j + (p + 1) = (j + 1) + p := by omega
        have := hidx (p + 1) (Nat.succ_lt_succ hp)
        rw [e] at this
        simpa using this
      have hlen' : (j + 1) + rest.length = decl.length := by simp at hlen; omega
      have hft' : ∀ p, p < rest.length →
          (decl.getD ((j + 1) + p) ("", .tint)).2
            = (rest.getD p (("", .tint), .vint 0)).1.2 := fun p hp => by
        have e : j + (p + 1) = (j + 1) + p := by omega
        have := hft (p + 1) (Nat.succ_lt_succ hp)
        rw [e] at this
        simpa using this
      have hty' : ∀ p, p < rest.length →
          typeOf (rest.getD p (("", .tint), .vint 0)).2
            = (rest.getD p (("", .tint), .vint 0)).1.2 := fun p hp => by
        simpa using hty (p + 1) (Nat.succ_lt_succ hp)
      have hrec := fillFields_roundtrip decl info rest (j + 1) (state.set j v)
        (by simp [hstate]) hidx' hlen' hft' hty'
      have htake : (state.set j v).take (j + 1) = state.take j ++ [v] :=
        take_succ_set state v hjlt'
      rw [show fillFields decl info state
            ((((ftag, fty), v) :: rest).map (fun e => (e.1.1, e.2)))
          = fillFields decl info (state.set j v) (rest.map (fun e => (e.1.1, e.2)))
          from by
        rw [List.map_cons, fillFields_cons, hidx0, if_pos hjlt, if_pos hconv, hcv]]
      rw [hrec, htake]
      simp

/-! ## Facade helper lemmas -/

/-- Every `Updates` call the facade issues carries a row without the
literal key `"id"` (the `delete(m, "id")` in `Update`). -/
theorem updateRun_calls_no_id :
    ∀ (items : List Arg) (f : DbCall → Option GoErr) (tableName : String)
      (call : DbCall), call ∈ (updateRun f tableName items).1 →
    ∃ m, call = .updates tableName m ∧ mapHasKey m "id" = false
  | [], _, _, _, h => by simp [updateRun] at h
  | item :: rest, f, tableName, call, h => by
      cases hsm : structToMap item with
      | error e => simp [updateRun, hsm] at h
      | ok m =>
          cases hf : f (DbCall.updates tableName (mapDelete m "id")) with
          | some e =>
              simp [updateRun, hsm, hf] at h
              exact ⟨mapDelete m "id", by rw [h], mapHasKey_delete_self m "id"⟩
          | none =>
              simp [updateRun, hsm, hf] at h
              rcases h with h | h
              · exact ⟨mapDelete m "id", by rw [h], mapHasKey_delete_self m "id"⟩
              · exact updateRun_calls_no_id rest f tableName call h

/-- A nil pointer field's column never appears in the encoded row
(struct with non-empty, pairwise distinct tags). -/
theorem encode_skips_nil_field (decl : StructDecl) (vals : List GoVal)
    (i : Nat) (t0 t1 : GoTy)
    (hfield : ∀ f ∈ decl, f.1 ≠ "")
    (hnd : (decl.map (fun f => f.1)).Nodup)
    (hlen : vals.length = decl.length)
    (hi : i < decl.length)
    (hty : (decl.getD i ("", .tint)).2 = .tptr t0)
    (hv : vals.getD i (.vint 0) = .vnil t1) :
    mapHasKey (structToMapGo decl vals) ((decl.getD i ("", .tint)).1) = false := by
  unfold structToMapGo
  apply stmLoop_hasKey_false (getTagNames decl) (decl.zip vals) 0 []
    ((decl.getD i ("", .tint)).1) rfl
  intro p hp hemit
  have hziplen : (decl.zip vals).length = decl.length := by
    simp [List.length_zip, hlen]
  have hp' : p < decl.length := hziplen ▸ hp
  have hgetD := zip_getD decl vals ("", GoTy.tint) (GoVal.vint 0) hp' (by omega)
  by_cases hpi : p = i
  · rw [hgetD, hpi] at hemit
    have hpair : decl.getD i ("", GoTy.tint)
        = ((decl.getD i ("", GoTy.tint)).1, GoTy.tptr t0) := by
      rw [← hty]
    rw [hpair, hv] at hemit
    simp [stmEmits] at hemit
  · rw [Nat.zero_add,
      getTagNames_Names decl hp' (hfield _ (getD_mem decl ("", GoTy.tint) hp'))]
    exact decl_tags_distinct decl hnd hp' hi hpi

/-! ## Claim theorems -/

/-- C1 (evidence of the code bug): with a fresh chunk buffer and
`ChunkSize = 3`, a cursor of 7 rows invokes the callback **4** times with
buffers of lengths 3, 3, 3, 1 (not ⌈7/3⌉ = 3 with lengths 3, 3, 1), and a
cursor of 3 rows invokes it **twice** — the second call delivering a stale
copy of row 0 — although `idx` was reset to 0 on the last row, which the
source's own comment says must skip that call.  The zero-rows part of the
claim does hold.  The cause: the loop body sets `idx = 0` after a full
chunk, but the `for` post-statement `idx++` immediately makes it 1. -/
theorem queryChunks_callback_counts :
    ((chunkBufs (queryChunks (.ptrSliceStruct [("n", GoTy.tint)] false []) 3
        (fun _ => none)
        ((List.range 7).map (fun j => [GoVal.vint (Int.ofNat j)]))).1).map
      List.length = [3, 3, 3, 1]) ∧
    (chunkBufs (queryChunks (.ptrSliceStruct [("n", GoTy.tint)] false []) 3
        (fun _ => none)
        ((List.range 3).map (fun j => [GoVal.vint (Int.ofNat j)]))).1
      = [[[.vint 0], [.vint 1], [.vint 2]], [[.vint 0]]]) ∧
    (chunkBufs (queryChunks (.ptrSliceStruct [("n", GoTy.tint)] false []) 3
        (fun _ => none) []).1 = []) :=
  ⟨by decide, by decide, by decide⟩

/-- C2 (amended): for a record type all of whose fields carry non-empty,
pairwise distinct tags and have non-pointer declared types, encoding with
`StructToMap` and decoding the row into a fresh (zero) record with
`FillStructWith` succeeds and reproduces the original record.  (As frozen,
the claim fails for present pointer fields — see the counterexample.) -/
theorem structToMap_fillStructWith_roundtrip (decl : StructDecl) (vals : List GoVal)
    (hfield : ∀ f ∈ decl, f.1 ≠ "" ∧ f.2.isPtr = false)
    (hnd : (decl.map (fun f => f.1)).Nodup)
    (hlen : vals.length = decl.length)
    (htyped : ∀ p, p < decl.length →
      typeOf (vals.getD p (.vint 0)) = (decl.getD p ("", .tint)).2) :
    structToMap (.structArg decl vals) = .ok (structToMapGo decl vals) ∧
    fillStructWith (.ptrStruct decl (zeroVals decl)) (structToMapGo decl vals)
      = (.ptrStruct decl vals, none) := by
  refine ⟨rfl, ?_⟩
  have hziplen : (decl.zip vals).length = decl.length := by
    simp [List.length_zip, hlen]
  have hgetD : ∀ p, p < decl.length →
      (decl.zip vals).getD p (("", GoTy.tint), GoVal.vint 0)
        = (decl.getD p ("", GoTy.tint), vals.getD p (GoVal.vint 0)) :=
    fun p hp => zip_getD decl vals ("", GoTy.tint) (GoVal.vint 0) hp (by omega)
  have htag : ∀ p, p < decl.length → (decl.getD p ("", GoTy.tint)).1 ≠ "" :=
    fun p hp => (hfield _ (getD_mem decl ("", GoTy.tint) hp)).1
  have hptr : ∀ p, p < decl.length →
      (decl.getD p ("", GoTy.tint)).2.isPtr = false :=
    fun p hp => (hfield _ (getD_mem decl ("", GoTy.tint) hp)).2
  have hname : ∀ p, p < (decl.zip vals).length →
      mapLookupD (getTagNames decl).Names (0 + p) ""
        = ((decl.zip vals).getD p (("", GoTy.tint), GoVal.vint 0)).1.1 := by
    intro p hp
    have hp' : p < decl.length := hziplen ▸ hp
    rw [Nat.zero_add, hgetD p hp']
    exact getTagNames_Names decl hp' (htag p hp')
  have hptrz : ∀ e ∈ decl.zip vals, e.1.2.isPtr = false := by
    intro e he
    obtain ⟨j, hj, _, h1, _⟩ :=
      mem_zip_getD decl vals e ("", GoTy.tint) (GoVal.vint 0) he
    rw [← h1]
    exact hptr j hj
  have hndz : ((decl.zip vals).map (fun e => e.1.1)).Nodup := by
    rw [show (fun (e : (String × GoTy) × GoVal) => e.1.1)
        = ((fun (f : String × GoTy) => f.1)
            ∘ (fun (e : (String × GoTy) × GoVal) => e.1)) from rfl,
      ← List.map_map, zip_map_fst decl vals (by omega)]
    exact hnd
  have henc : structToMapGo decl vals
      = (decl.zip vals).map (fun e => (e.1.1, e.2)) := by
    unfold structToMapGo
    rw [stmLoop_plain (getTagNames decl) (decl.zip vals) 0 [] hname hptrz
      (fun _ _ => rfl) hndz]
    simp
  have hz0 : (zeroVals decl).length = decl.length := by simp [zeroVals]
  have hidx : ∀ p, p < (decl.zip vals).length →
      mapLookupD (getTagNames decl).Index
        (((decl.zip vals).getD p (("", GoTy.tint), GoVal.vint 0)).1.1) 0 = 0 + p := by
    intro p hp
    have hp' : p < decl.length := hziplen ▸ hp
    rw [Nat.zero_add, hgetD p hp']
    exact getTagNames_Index decl hp' (htag p hp')
      (fun q hq hqp => decl_tags_distinct decl hnd hq hp' hqp)
  have hz1 : 0 + (decl.zip vals).length = decl.length := by
    simp [hziplen]
  have hftz : ∀ p, p < (decl.zip vals).length →
      (decl.getD (0 + p) ("", GoTy.tint)).2
        = ((decl.zip vals).getD p (("", GoTy.tint), GoVal.vint 0)).1.2 := by
    intro p hp
    have hp' : p < decl.length := hziplen ▸ hp
    rw [Nat.zero_add, hgetD p hp']
  have htyz : ∀ p, p < (decl.zip vals).length →
      typeOf ((decl.zip vals).getD p (("", GoTy.tint), GoVal.vint 0)).2
        = ((decl.zip vals).getD p (("", GoTy.tint), GoVal.vint 0)).1.2 := by
    intro p hp
    have hp' : p < decl.length := hziplen ▸ hp
    rw [hgetD p hp']
    exact htyped p hp'
  have hdec := fillFields_roundtrip decl (getTagNames decl) (decl.zip vals) 0
    (zeroVals decl) hz0 hidx hz1 hftz htyz
  have hmap2 : (decl.zip vals).map (fun e => e.2) = vals :=
    zip_map_snd decl vals (by omega)
  rw [show fillStructWith (.ptrStruct decl (zeroVals decl)) (structToMapGo decl vals)
      = (.ptrStruct decl
          (fillFields decl (getTagNames decl) (zeroVals decl)
            (structToMapGo decl vals)).1,
         (fillFields decl (getTagNames decl) (zeroVals decl)
            (structToMapGo decl vals)).2) from rfl]
  rw [henc, hdec]
  simp [hmap2]

/-- C2 counterexample: a record whose (only) optional field is present.
`StructToMap` stores the dereferenced `string`, and decoding fails with a
`typeMismatch` because `string` is not convertible to `*string` — so
`decode(encode(r), &r2)` does not succeed, contradicting the claim. -/
theorem roundtrip_fails_on_present_pointer :
    structToMap (.structArg [("email", GoTy.tptr .tstring)] [.vptr (.vstr "x")])
      = .ok [("email", .vstr "x")] ∧
    fillStructWith (.ptrStruct [("email", GoTy.tptr .tstring)]
        (zeroVals [("email", GoTy.tptr .tstring)])) [("email", .vstr "x")]
      = (.ptrStruct [("email", GoTy.tptr .tstring)] [.vnil .tstring],
         some (.typeMismatch "email" (GoTy.tptr .tstring)
           [("email", GoTy.tptr .tstring)])) :=
  ⟨rfl, by decide⟩

/-- C2 witness: the round trip at `User{id int, name string}` with values
`{1, "Ann"}`. -/
theorem roundtrip_witness :
    (∀ f ∈ [("id", GoTy.tint), ("name", GoTy.tstring)],
      f.1 ≠ "" ∧ f.2.isPtr = false) ∧
    fillStructWith
        (.ptrStruct [("id", GoTy.tint), ("name", GoTy.tstring)]
          (zeroVals [("id", GoTy.tint), ("name", GoTy.tstring)]))
        (structToMapGo [("id", GoTy.tint), ("name", GoTy.tstring)]
          [.vint 1, .vstr "Ann"])
      = (.ptrStruct [("id", GoTy.tint), ("name", GoTy.tstring)]
          [.vint 1, .vstr "Ann"], none) :=
  ⟨by decide,
   (structToMap_fillStructWith_roundtrip
      [("id", GoTy.tint), ("name", GoTy.tstring)] [.vint 1, .vstr "Ann"]
      (by decide) (by decide) (by decide) (by decide)).2⟩

/-- C3 (evidence of the code bug): decoding a row with a column `"oops"`
that the descriptor does not contain returns **success** and silently
writes the value into field 0 — `info.Index["oops"]` is Go's map zero
value 0 — instead of failing as the claim (and the spec's
unknown-column requirement) demands. -/
theorem fillStructWith_unknown_column_is_silent :
    mapHasKey (getTagNames [("id", GoTy.tint), ("name", GoTy.tstring)]).Index "oops"
      = false ∧
    fillStructWith (.ptrStruct [("id", GoTy.tint), ("name", GoTy.tstring)]
        [.vint 0, .vstr ""]) [("oops", .vint 7)]
      = (.ptrStruct [("id", GoTy.tint), ("name", GoTy.tstring)]
          [.vint 7, .vstr ""], none) := by
  decide

/-- C4 (amended): (1) the encoded row of a record never contains the
column of a nil pointer field (record types with non-empty, pairwise
distinct tags); (2) every row `Update` sends to the collaborator lacks the
**literal** key `"id"` — that, not "the identifier column whatever its
name", is what `delete(m, "id")` removes (see the counterexample). -/
theorem encode_excludes_nil_and_update_strips_literal_id :
    (∀ (decl : StructDecl) (vals : List GoVal) (i : Nat) (t0 t1 : GoTy),
      (∀ f ∈ decl, f.1 ≠ "") →
      (decl.map (fun f => f.1)).Nodup →
      vals.length = decl.length →
      i < decl.length →
      (decl.getD i ("", .tint)).2 = .tptr t0 →
      vals.getD i (.vint 0) = .vnil t1 →
      mapHasKey (structToMapGo decl vals) ((decl.getD i ("", .tint)).1) = false) ∧
    (∀ (items : List Arg) (f : DbCall → Option GoErr) (tableName : String)
      (call : DbCall), call ∈ (updateRun f tableName items).1 →
      ∃ m, call = .updates tableName m ∧ mapHasKey m "id" = false) :=
  ⟨fun decl vals i t0 t1 h1 h2 h3 h4 h5 h6 =>
     encode_skips_nil_field decl vals i t0 t1 h1 h2 h3 h4 h5 h6,
   fun items f tableName call h => updateRun_calls_no_id items f tableName call h⟩

/-- C4 counterexample: a record whose identifier field is tagged `"uid"`.
`Update` sends the row with the `"uid"` column intact — `delete(m, "id")`
only removes the literal name `"id"`. -/
theorem update_sends_renamed_identifier :
    updateRun (fun _ => none) "users"
        [.structArg [("uid", GoTy.tint), ("name", GoTy.tstring)]
          [.vint 7, .vstr "A"]]
      = ([.updates "users" [("uid", .vint 7), ("name", .vstr "A")]], none) ∧
    mapHasKey [("uid", GoVal.vint 7), ("name", GoVal.vstr "A")] "uid" = true := by
  decide

/-- C4 witness: a record with id 1 and a nil email encodes without the
`"email"` column, and the spec's update scenario (id 1, name Ann, email
nil) sends only the name column, which lacks `"id"`. -/
theorem encode_update_witness :
    mapHasKey (structToMapGo [("id", GoTy.tint), ("email", GoTy.tptr .tstring)]
        [.vint 1, .vnil .tstring]) "email" = false ∧
    (∃ m, (DbCall.updates "users" [("name", GoVal.vstr "Ann")])
        = .updates "users" m ∧ mapHasKey m "id" = false) :=
  ⟨encode_excludes_nil_and_update_strips_literal_id.1
      [("id", GoTy.tint), ("email", GoTy.tptr .tstring)] [.vint 1, .vnil .tstring]
      1 .tstring .tstring (by decide) (by decide) (by decide) (by decide)
      (by decide) (by decide),
   encode_excludes_nil_and_update_strips_literal_id.2
      [.structArg
        [("id", GoTy.tint), ("name", GoTy.tstring), ("email", GoTy.tptr .tstring)]
        [.vint 1, .vstr "Ann", .vnil .tstring]]
      (fun _ => none) "users" _ (by decide)⟩

/-- C5 (amended): every wrong-shape argument produces a `shapeError` in
all four operations, and `StructToMap`/`FillStructWith`/`FillSliceWith`
perform no I/O at all; but in `QueryChunks` the error is surfaced **after**
the query has been executed (`rawQuery` precedes it in the trace — see the
counterexample), though before any row is scanned or the callback runs. -/
theorem shape_errors_surfaced :
    (∀ arg, isStructToMapOk arg = false →
      ∃ s, structToMap arg = .error (.shapeError s)) ∧
    (∀ arg row, isPtrStructArg arg = false →
      ∃ s, fillStructWith arg row = (arg, some (.shapeError s))) ∧
    (∀ arg rows, isPtrSliceStructArg arg = false →
      ∃ s, fillSliceWith arg rows = (arg, some (.shapeError s))) ∧
    (∀ (arg : Arg) (k : Nat) (g : List (List GoVal) → Option GoErr)
      (rows : List (List GoVal)), isPtrSliceStructArg arg = false →
      ∃ s, queryChunks arg k g rows = ([.rawQuery], some (.shapeError s))) := by
  refine ⟨?_, ?_, ?_, ?_⟩
  · intro arg h
    cases arg <;> simp [isStructToMapOk] at h <;> exact ⟨_, rfl⟩
  · intro arg row h
    cases arg <;> simp [isPtrStructArg] at h <;> exact ⟨_, rfl⟩
  · intro arg rows h
    cases arg <;> simp [isPtrSliceStructArg] at h <;> exact ⟨_, rfl⟩
  · intro arg k g rows h
    cases arg <;> simp [isPtrSliceStructArg] at h <;> exact ⟨_, rfl⟩

/-- C5 counterexample: passing a plain `int` as the chunk target.  The
shape error is returned, but the trace already contains the query
execution — `c.db.Raw`/`it.Rows()` run before `decodeAsSliceOfStructs` —
so the `ShapeError` is *not* surfaced before I/O is attempted. -/
theorem queryChunks_io_before_shape_check :
    queryChunks (.scalar GoTy.tint) 2 (fun _ => none) []
      = ([.rawQuery],
         some (.shapeError "FillListWith: expected input to be a pointer to struct")) ∧
    QEv.rawQuery ∈ (queryChunks (.scalar GoTy.tint) 2 (fun _ => none) []).1 :=
  ⟨rfl, by decide⟩

/-- C5 witness: the four conjuncts at concrete wrong-shape arguments. -/
theorem shape_errors_witness :
    (∃ s, structToMap (.scalar GoTy.tint) = .error (.shapeError s)) ∧
    (∃ s, fillStructWith (.scalar GoTy.tint) []
        = (.scalar GoTy.tint, some (.shapeError s))) ∧
    (∃ s, fillSliceWith (.ptrNonSlice GoTy.tint) []
        = (.ptrNonSlice GoTy.tint, some (.shapeError s))) ∧
    (∃ s, queryChunks (.structArg [] []) 1 (fun _ => none) []
        = ([.rawQuery], some (.shapeError s))) :=
  ⟨shape_errors_surfaced.1 _ (by decide),
   shape_errors_surfaced.2.1 _ [] (by decide),
   shape_errors_surfaced.2.2.1 _ [] (by decide),
   shape_errors_surfaced.2.2.2 _ 1 (fun _ => none) [] (by decide)⟩

/-- C6 (amended): on a non-convertible row value, `FillStructWith` aborts
the decode at that column with a `typeMismatch` error that carries the
column name, the **destination** field type (in the position the format
string labels as the source's type), and the target struct type — but not
the source value's type (see the counterexample); the target is left
unmutated at that point and the remaining entries are not processed. -/
theorem fillStructWith_typeMismatch_aborts (decl : StructDecl) (vals : List GoVal)
    (col : String) (attr : GoVal) (rest : Row)
    (hi : mapLookupD (getTagNames decl).Index col 0 < decl.length)
    (hconv : convertibleTo (typeOf attr)
      ((decl.getD (mapLookupD (getTagNames decl).Index col 0) ("", .tint)).2)
      = false) :
    fillStructWith (.ptrStruct decl vals) ((col, attr) :: rest)
      = (.ptrStruct decl vals,
         some (.typeMismatch col
           ((decl.getD (mapLookupD (getTagNames decl).Index col 0) ("", .tint)).2)
           decl)) := by
  rw [show fillStructWith (.ptrStruct decl vals) ((col, attr) :: rest)
      = (.ptrStruct decl
          (fillFields decl (getTagNames decl) vals ((col, attr) :: rest)).1,
         (fillFields decl (getTagNames decl) vals ((col, attr) :: rest)).2)
      from rfl]
  have hne : ¬(convertibleTo (typeOf attr)
      ((decl.getD (mapLookupD (getTagNames decl).Index col 0) ("", .tint)).2)
      = true) := by
    rw [hconv]
    simp
  rw [fillFields_cons, if_pos hi, if_neg hne]

/-- C6 counterexample: decoding `{"x": "a"}` into `struct{x int}` yields
`typeMismatch "x" int struct{x int}` — the source value's type `string`
appears nowhere in the error, contradicting "identifies … the source
value's type". -/
theorem typeMismatch_error_lacks_source_type :
    fillStructWith (.ptrStruct [("x", GoTy.tint)] [.vint 0]) [("x", .vstr "a")]
      = (.ptrStruct [("x", GoTy.tint)] [.vint 0],
         some (.typeMismatch "x" GoTy.tint [("x", GoTy.tint)])) ∧
    typeOf (.vstr "a") = GoTy.tstring ∧
    errMentionsTy (.typeMismatch "x" GoTy.tint [("x", GoTy.tint)]) GoTy.tstring
      = false := by
  decide

/-- C6 witness: the abort at `struct{a int}` with row `{"a": "s"}`. -/
theorem typeMismatch_witness :
    mapLookupD (getTagNames [("a", GoTy.tint)]).Index "a" 0 < 1 ∧
    fillStructWith (.ptrStruct [("a", GoTy.tint)] [.vint 3]) [("a", .vstr "s")]
      = (.ptrStruct [("a", GoTy.tint)] [.vint 3],
         some (.typeMismatch "a" GoTy.tint [("a", GoTy.tint)])) :=
  ⟨by decide,
   fillStructWith_typeMismatch_aborts [("a", GoTy.tint)] [.vint 3] "a"
     (.vstr "s") [] (by decide) (by decide)⟩

/-- C7 (amended): for rows all of whose keys are descriptor columns,
`FillStructWith` mutates only the fields those keys resolve to: any field
index that is the `Index`-resolution of no row key keeps its prior value.
(As frozen the claim fails: an unknown row key resolves to index 0 and
mutates field 0, whose column is not a key of the row — see the
counterexample.) -/
theorem fillStructWith_frame (decl : StructDecl) (vals : List GoVal) (row : Row)
    (j : Nat) (d : GoVal)
    (_hkeys : ∀ e ∈ row, mapHasKey (getTagNames decl).Index e.1 = true)
    (hj : ∀ e ∈ row, mapLookupD (getTagNames decl).Index e.1 0 ≠ j) :
    ∃ vals' err,
      fillStructWith (.ptrStruct decl vals) row = (.ptrStruct decl vals', err)
        ∧ vals'.getD j d = vals.getD j d :=
  ⟨(fillFields decl (getTagNames decl) vals row).1,
   (fillFields decl (getTagNames decl) vals row).2, rfl,
   fillFields_frame decl (getTagNames decl) row vals j d hj⟩

/-- C7 counterexample: a row whose only key, `"bogus"`, is not `"id"` (nor
any descriptor column), yet decoding mutates the `id` field (index 0) from
1 to 9 — a field whose column name appears nowhere in the row. -/
theorem unknown_key_mutates_id_field :
    (([("bogus", GoVal.vint 9)] : Row).all (fun e => decide (e.1 ≠ "id")) = true) ∧
    fillStructWith (.ptrStruct
        [("id", GoTy.tint), ("name", GoTy.tstring), ("email", GoTy.tptr .tstring)]
        [.vint 1, .vstr "Bob", .vnil .tstring]) [("bogus", .vint 9)]
      = (.ptrStruct
          [("id", GoTy.tint), ("name", GoTy.tstring), ("email", GoTy.tptr .tstring)]
          [.vint 9, .vstr "Bob", .vnil .tstring], none) := by
  decide

/-- C7 witness: the spec's scenario — decoding `{"id":1, "name":"Ann"}`
into a fresh `User{ID int, Name string, Email *string}` leaves the email
field (index 2) at its zero value. -/
theorem fillStructWith_frame_witness :
    (∀ e ∈ ([("id", GoVal.vint 1), ("name", GoVal.vstr "Ann")] : Row),
      mapLookupD (getTagNames
        [("id", GoTy.tint), ("name", GoTy.tstring),
          ("email", GoTy.tptr .tstring)]).Index e.1 0 ≠ 2) ∧
    (∃ vals' err,
      fillStructWith (.ptrStruct
          [("id", GoTy.tint), ("name", GoTy.tstring), ("email", GoTy.tptr .tstring)]
          (zeroVals [("id", GoTy.tint), ("name", GoTy.tstring),
            ("email", GoTy.tptr .tstring)]))
        [("id", .vint 1), ("name", .vstr "Ann")]
        = (.ptrStruct
            [("id", GoTy.tint), ("name", GoTy.tstring), ("email", GoTy.tptr .tstring)]
            vals', err)
        ∧ vals'.getD 2 (.vint 0)
          = (zeroVals [("id", GoTy.tint), ("name", GoTy.tstring),
              ("email", GoTy.tptr .tstring)]).getD 2 (.vint 0)) :=
  ⟨by decide,
   fillStructWith_frame
     [("id", GoTy.tint), ("name", GoTy.tstring), ("email", GoTy.tptr .tstring)]
     (zeroVals [("id", GoTy.tint), ("name", GoTy.tstring),
       ("email", GoTy.tptr .tstring)])
     [("id", .vint 1), ("name", .vstr "Ann")] 2 (.vint 0)
     (by decide) (by decide)⟩

/-- C8: repeated descriptor lookups for the same type return the identical
descriptor without re-scanning, and over any sequence of lookups the
reflective scan (`getTagNames`) runs at most once per type. -/
theorem describe_idempotent_and_scans_once :
    ∀ (c : CacheState) (t : StructDecl) (reqs : List StructDecl),
    (describe (describe c t).state t).info = (describe c t).info ∧
    (describe (describe c t).state t).scanned = false ∧
    scanCount c reqs t ≤ 1 := by
  intro c t reqs
  refine ⟨?_, ?_, scanCount_le_one reqs c t⟩
  · by_cases h : mapHasKey c.cache t
    · simp [describe, h]
    · simp [describe, h, mapHasKey_insert_self, mapLookupD_insert_self]
  · by_cases h : mapHasKey c.cache t
    · simp [describe, h]
    · simp [describe, h, mapHasKey_insert_self]

/-- C9: `ChangeTable` returns a facade with the new table name and the
same connection; the original client is untouched (the model is a pure
function of the value receiver — re-deriving a facade with the original
table name reproduces the original client exactly). -/
theorem changeTable_returns_new_facade :
    ∀ (c : Client) (t : String),
    (changeTable c t).tableName = t ∧ (changeTable c t).db = c.db ∧
    changeTable (changeTable c t) c.tableName = c :=
  fun _ _ => ⟨rfl, rfl, rfl⟩

/-- C10: `Update` and `Delete` with zero items return `nil` error without
issuing any collaborator call, whatever the collaborator would answer. -/
theorem update_delete_empty_noop :
    ∀ (f : DbCall → Option GoErr) (tableName : String),
    updateRun f tableName [] = ([], none) ∧ deleteRun f tableName [] = ([], none) :=
  fun _ _ => ⟨rfl, rfl⟩

end KissOrm
